import Mathlib

/-!
Verification of the nfcmessager repository: a shallow embedding of the
link codec (`buildDeepLink` / `parseMessageFromUrl`), the deep-link
listener handlers, and the NFC write/read handlers, for the two source
variants (`src/App.tsx`, here namespace `AppTsx`, and
`src/unnamed/part_000`, here namespace `Part000`).

JavaScript strings are modelled as lists of Unicode scalar values
(`List Char`); the ECMAScript builtins `encodeURIComponent` /
`decodeURIComponent` and the WHATWG `URL` / `URLSearchParams`
machinery used by the source are modelled from their specifications,
restricted to the behaviour the source exercises (the fields
`protocol`, `hostname` and `searchParams.get` are the only parts of a
parsed URL the source reads).
-/

/-- JavaScript strings, modelled as their sequence of Unicode scalar values. -/
abbrev Str := List Char

/-- Convert a Lean string literal into the model type. -/
def str (s : String) : Str := s.data

/-- Concatenation of the images of `f`, used to model flat maps over strings. -/
def concatMap (f : α → List β) : List α → List β
  | [] => []
  | a :: as => f a ++ concatMap f as

/-- Split a list at the first element satisfying `p`: returns the prefix of
elements not satisfying `p` and the remainder (which, when nonempty, starts
with the first element satisfying `p`). -/
def takeUntil (p : Char → Bool) : Str → Str × Str
  | [] => ([], [])
  | c :: r =>
    if p c then ([], c :: r)
    else
      let t := takeUntil p r
      (c :: t.1, t.2)

/-- Split a list on a separator character (the separator is dropped); an
input with no separator yields the one-piece list `[l]`. -/
def splitOnChar (sep : Char) : Str → List Str
  | [] => [[]]
  | c :: r =>
    if c = sep then [] :: splitOnChar sep r
    else
      match splitOnChar sep r with
      | [] => [[c]]
      | p :: ps => (c :: p) :: ps

/-- Uppercase hexadecimal digit for `n < 16` (as emitted by
`encodeURIComponent`). -/
def hexDigitChar (n : Nat) : Char :=
  if n < 10 then Char.ofNat (48 + n) else Char.ofNat (55 + n)

/-- Hexadecimal digit recognizer (both cases), as accepted by percent
decoding. -/
def isHexDigit (c : Char) : Bool :=
  (48 ≤ c.toNat && c.toNat ≤ 57) || (65 ≤ c.toNat && c.toNat ≤ 70) ||
    (97 ≤ c.toNat && c.toNat ≤ 102)

/-- Numeric value of a hexadecimal digit. -/
def hexVal (c : Char) : Nat :=
  if c.toNat ≤ 57 then c.toNat - 48
  else if c.toNat ≤ 70 then c.toNat - 55
  else c.toNat - 87

/-- UTF-8 encoding of one Unicode scalar value, as a list of bytes. -/
def utf8Encode (c : Char) : List Nat :=
  let n := c.toNat
  if n < 0x80 then [n]
  else if n < 0x800 then [0xC0 + n / 64, 0x80 + n % 64]
  else if n < 0x10000 then
    [0xE0 + n / 4096, 0x80 + n / 64 % 64, 0x80 + n % 64]
  else
    [0xF0 + n / 262144, 0x80 + n / 4096 % 64, 0x80 + n / 64 % 64, 0x80 + n % 64]

/-- UTF-8 encoding of a whole string. -/
def utf8Bytes (s : Str) : List Nat := concatMap utf8Encode s

/-- `%XX` percent escape of one byte, with uppercase hexadecimal digits. -/
def percentByte (b : Nat) : Str :=
  ['%', hexDigitChar (b / 16), hexDigitChar (b % 16)]

/-- The characters `encodeURIComponent` leaves unescaped
(`uriUnescaped` of ECMA-262): ASCII letters, digits, and
`- _ . ! ~ * ' ( )`, given here by code point. -/
def isUriUnescaped (c : Char) : Bool :=
  let n := c.toNat
  (65 ≤ n && n ≤ 90) || (97 ≤ n && n ≤ 122) || (48 ≤ n && n ≤ 57) ||
    n == 45 || n == 95 || n == 46 || n == 33 || n == 126 || n == 42 ||
    n == 39 || n == 40 || n == 41

/-- Models the ECMAScript builtin `encodeURIComponent`: unescaped
characters pass through, every other character is replaced by the percent
escapes of its UTF-8 bytes. -/
def encodeURIComponent (s : Str) : Str :=
  concatMap
    (fun c =>
      if isUriUnescaped c then [c] else concatMap percentByte (utf8Encode c))
    s

/-- The Unicode replacement character U+FFFD. -/
def repl : Char := Char.ofNat 0xFFFD

/-- UTF-8 continuation byte test. -/
def isCont (b : Nat) : Bool := 0x80 ≤ b && b < 0xC0

/-- One UTF-8 decoding step in lossy mode, on a lead byte `b` and the
remaining bytes `r`: returns the decoded character together with the number
of continuation bytes it consumed from `r`. A malformed lead, a missing or
malformed continuation, an overlong encoding, a surrogate or an
out-of-range value yield the replacement character, consuming only the lead
byte. (The error-recovery granularity — one replacement character per
rejected lead byte rather than per maximal invalid subsequence — is an
approximation that only affects invalid byte sequences, which no behaviour
verified here produces.) -/
def utf8StepReplace (b : Nat) (r : List Nat) : Char × Nat :=
  if b < 0x80 then (Char.ofNat b, 0)
  else if b < 0xC2 then (repl, 0)
  else if b < 0xE0 then
    match r with
    | b1 :: _ =>
      if isCont b1 then (Char.ofNat ((b - 0xC0) * 64 + (b1 - 0x80)), 1)
      else (repl, 0)
    | [] => (repl, 0)
  else if b < 0xF0 then
    match r with
    | b1 :: b2 :: _ =>
      if isCont b1 && isCont b2 then
        let v := (b - 0xE0) * 4096 + (b1 - 0x80) * 64 + (b2 - 0x80)
        if 0x800 ≤ v && !(0xD800 ≤ v && v < 0xE000) then (Char.ofNat v, 2)
        else (repl, 0)
      else (repl, 0)
    | _ => (repl, 0)
  else if b < 0xF5 then
    match r with
    | b1 :: b2 :: b3 :: _ =>
      if isCont b1 && isCont b2 && isCont b3 then
        let v := (b - 0xF0) * 262144 + (b1 - 0x80) * 4096 +
          (b2 - 0x80) * 64 + (b3 - 0x80)
        if 0x10000 ≤ v && v < 0x110000 then (Char.ofNat v, 3)
        else (repl, 0)
      else (repl, 0)
    | _ => (repl, 0)
  else (repl, 0)

/-- Fuelled decoding loop for `utf8DecodeReplace`; the fuel (instantiated
with the byte count, an upper bound on the number of decoded characters)
only makes the recursion structural. -/
def utf8DecodeReplaceAux : Nat → List Nat → Str
  | _, [] => []
  | 0, _ :: _ => []
  | fuel + 1, b :: r =>
    let p := utf8StepReplace b r
    p.1 :: utf8DecodeReplaceAux fuel (r.drop p.2)

/-- Lossy UTF-8 decoding (as performed by the WHATWG
`application/x-www-form-urlencoded` value decoder): malformed bytes decode
to replacement characters. -/
def utf8DecodeReplace (l : List Nat) : Str := utf8DecodeReplaceAux l.length l

/-- One UTF-8 decoding step in strict mode: as `utf8StepReplace`, but every
malformed case is `none`. -/
def utf8StepStrict (b : Nat) (r : List Nat) : Option (Char × Nat) :=
  if b < 0x80 then some (Char.ofNat b, 0)
  else if b < 0xC2 then none
  else if b < 0xE0 then
    match r with
    | b1 :: _ =>
      if isCont b1 then some (Char.ofNat ((b - 0xC0) * 64 + (b1 - 0x80)), 1)
      else none
    | [] => none
  else if b < 0xF0 then
    match r with
    | b1 :: b2 :: _ =>
      if isCont b1 && isCont b2 then
        let v := (b - 0xE0) * 4096 + (b1 - 0x80) * 64 + (b2 - 0x80)
        if 0x800 ≤ v && !(0xD800 ≤ v && v < 0xE000) then some (Char.ofNat v, 2)
        else none
      else none
    | _ => none
  else if b < 0xF5 then
    match r with
    | b1 :: b2 :: b3 :: _ =>
      if isCont b1 && isCont b2 && isCont b3 then
        let v := (b - 0xF0) * 262144 + (b1 - 0x80) * 4096 +
          (b2 - 0x80) * 64 + (b3 - 0x80)
        if 0x10000 ≤ v && v < 0x110000 then some (Char.ofNat v, 3)
        else none
      else none
    | _ => none
  else none

/-- Fuelled decoding loop for `utf8DecodeStrict`. -/
def utf8DecodeStrictAux : Nat → List Nat → Option Str
  | _, [] => some []
  | 0, _ :: _ => none
  | fuel + 1, b :: r =>
    match utf8StepStrict b r with
    | none => none
    | some p => (utf8DecodeStrictAux fuel (r.drop p.2)).map (p.1 :: ·)

/-- Strict UTF-8 decoding (as performed by the ECMAScript `Decode` abstract
operation underlying `decodeURIComponent`): malformed bytes make the whole
decode fail, which the source's `try` block turns into `null`. -/
def utf8DecodeStrict (l : List Nat) : Option Str := utf8DecodeStrictAux l.length l

/-- One lenient percent-decoding step on a character `c` and the remaining
characters `r`: the bytes emitted and the number of extra characters
consumed from `r`. A `%` followed by two hexadecimal digits becomes that
byte; any other character (a `%` not starting a valid escape included)
contributes its own UTF-8 bytes and consumes nothing further. -/
def percentStepLoose (c : Char) (r : Str) : List Nat × Nat :=
  if c = '%' then
    match r with
    | h1 :: h2 :: _ =>
      if isHexDigit h1 && isHexDigit h2 then ([hexVal h1 * 16 + hexVal h2], 2)
      else ([37], 0)
    | _ => ([37], 0)
  else (utf8Encode c, 0)

/-- Fuelled loop for `percentDecodeLoose`. -/
def percentDecodeLooseAux : Nat → Str → List Nat
  | _, [] => []
  | 0, _ :: _ => []
  | fuel + 1, c :: r =>
    let p := percentStepLoose c r
    p.1 ++ percentDecodeLooseAux fuel (r.drop p.2)

/-- Lenient percent-decoding to bytes (WHATWG `percent-decode`, applied by
`URLSearchParams` to names and values). -/
def percentDecodeLoose (s : Str) : List Nat := percentDecodeLooseAux s.length s

/-- Strict percent-decoding to bytes (the ECMAScript `Decode` operation):
a `%` not followed by two hexadecimal digits raises `URIError`, modelled as
`none`; other characters contribute their UTF-8 bytes. -/
def percentDecodeStrict : Str → Option (List Nat)
  | [] => some []
  | c :: r =>
    if c = '%' then
      match r with
      | h1 :: h2 :: r' =>
        if isHexDigit h1 && isHexDigit h2 then
          (percentDecodeStrict r').map ((hexVal h1 * 16 + hexVal h2) :: ·)
        else none
      | _ => none
    else (percentDecodeStrict r).map (utf8Encode c ++ ·)

/-- Models the ECMAScript builtin `decodeURIComponent`: strict percent
decoding followed by strict UTF-8 decoding; `none` models a thrown
`URIError`. -/
def decodeURIComponentJS (s : Str) : Option Str :=
  (percentDecodeStrict s).bind utf8DecodeStrict

/-- `application/x-www-form-urlencoded` plus-sign handling: `+` in a query
name or value denotes a space. -/
def plusToSpace (s : Str) : Str :=
  s.map fun c => if c = '+' then ' ' else c

/-- `application/x-www-form-urlencoded` decoding of one query name or
value: plus signs become spaces, percent escapes are decoded leniently and
the resulting bytes are decoded as UTF-8 with replacement characters. -/
def formDecode (s : Str) : Str :=
  utf8DecodeReplace (percentDecodeLoose (plusToSpace s))

/-- Parse a query string into decoded name/value pairs (the
`application/x-www-form-urlencoded` parser backing `URLSearchParams`):
split on `&`, drop empty pieces, split each piece at its first `=` (a piece
without `=` has the empty value). -/
def formPairs (q : Str) : List (Str × Str) :=
  (splitOnChar '&' q).filterMap fun piece =>
    if piece = [] then none
    else
      let t := takeUntil (fun c => c == '=') piece
      let value : Str :=
        match t.2 with
        | _ :: v => v
        | [] => []
      some (formDecode t.1, formDecode value)

/-- `URLSearchParams.get`: the decoded value of the first pair whose
decoded name matches, or `none` when no pair matches. -/
def searchParamsGet (name : Str) (q : Str) : Option Str :=
  lookupFirst (formPairs q)
where
  lookupFirst : List (Str × Str) → Option Str
    | [] => none
    | (n, v) :: ps => if n = name then some v else lookupFirst ps

/-- ASCII lowercasing of one character, as applied to the scheme by the
WHATWG URL parser. -/
def asciiLower (c : Char) : Char :=
  if 65 ≤ c.toNat && c.toNat ≤ 90 then Char.ofNat (c.toNat + 32) else c

/-- ASCII lowercasing of a string. -/
def toLowerStr (s : Str) : Str := s.map asciiLower

/-- First character allowed in a URL scheme: an ASCII letter. -/
def isSchemeStart (c : Char) : Bool :=
  (65 ≤ c.toNat && c.toNat ≤ 90) || (97 ≤ c.toNat && c.toNat ≤ 122)

/-- Subsequent characters allowed in a URL scheme: ASCII alphanumerics and
`+`, `-`, `.`. -/
def isSchemeChar (c : Char) : Bool :=
  isSchemeStart c || (48 ≤ c.toNat && c.toNat ≤ 57) ||
    c == '+' || c == '-' || c == '.'

/-- A valid URL scheme: nonempty, an ASCII letter first, scheme characters
after. -/
def validScheme : Str → Bool
  | [] => false
  | c :: r => isSchemeStart c && r.all isSchemeChar

/-- The parts of a parsed WHATWG `URL` object the source reads:
`protocol` (lowercased scheme including the trailing colon), `hostname`,
and the query string backing `searchParams` (without the leading `?`). -/
structure URLRec where
  protocol : Str
  hostname : Str
  search : Str
  deriving Repr, DecidableEq

/-- Models the WHATWG `URL` constructor, restricted to the fields the
source reads and to the URL shapes reaching it: `scheme ':' [ '//' host ]
[path] [ '?' query ] [ '#' fragment ]`. A string without a valid scheme
followed by `:` fails to parse (`none` models the thrown `TypeError`);
after `//` the host extends to the first `/`, `?` or `#`; the query
extends from the first `?` to the first `#`. Host case-normalization and
the percent-encoding the parser applies inside the query (a decode-side
no-op for `searchParams.get`) are not modelled. -/
def parseURL (u : Str) : Option URLRec :=
  let ts := takeUntil (fun c => c == ':') u
  match ts.2 with
  | [] => none
  | _ :: afterColon =>
    if validScheme ts.1 then
      let proto := toLowerStr ts.1 ++ [':']
      match afterColon with
      | '/' :: '/' :: r2 =>
        let th := takeUntil (fun c => c == '/' || c == '?' || c == '#') r2
        let tq := takeUntil (fun c => c == '?' || c == '#') th.2
        match tq.2 with
        | '?' :: r5 => some ⟨proto, th.1, (takeUntil (fun c => c == '#') r5).1⟩
        | _ => some ⟨proto, th.1, []⟩
      | _ =>
        let tq := takeUntil (fun c => c == '?' || c == '#') afterColon
        match tq.2 with
        | '?' :: r5 => some ⟨proto, [], (takeUntil (fun c => c == '#') r5).1⟩
        | _ => some ⟨proto, [], []⟩
    else none

/-- An NDEF record as the source constructs it: `Ndef.uriRecord(uri)`
produces a URI record with the given payload. Byte-level serialization
(`Ndef.encodeMessage`) is performed by the external library and is
abstracted to the record list itself. -/
inductive NdefRecord where
  | uri (payload : Str)
  deriving Repr, DecidableEq

/-- An NDEF message handed to `writeNdefMessage`: `Ndef.encodeMessage`
applied to a record list, abstracted to that list. -/
abbrev NdefMessage := List NdefRecord

/-- Models `Ndef.encodeMessage`: the serialized message, abstracted to its
record list. -/
def ndefEncodeMessage (records : List NdefRecord) : NdefMessage := records

/-- Models `Ndef.uriRecord`. -/
def ndefUriRecord (uri : Str) : NdefRecord := .uri uri

/-- A platform error, carrying the human-readable message the source
surfaces via `err?.message ?? String(err)`. -/
abbrev ErrMsg := Str

/-- An `Alert.alert(title, message)` call. -/
structure AlertCall where
  title : Str
  message : Str
  deriving Repr, DecidableEq

/-- Outcomes of the platform calls awaited by `writeToTag`:
`NfcManager.requestTechnology` and
`NfcManager.ndefHandler.writeNdefMessage` each either resolve or reject. -/
structure WriteEnv where
  requestTechnology : Except ErrMsg Unit
  writeNdefMessage : Except ErrMsg Unit
  deriving Repr

/-- Observable outcome of one `writeToTag` invocation in the `App.tsx`
variant: the message written to the tag (if the write call was reached and
resolved), the alert surfaced, and how often
`NfcManager.cancelTechnologyRequest` was called. -/
structure WriteResultA where
  written : Option NdefMessage
  alert : Option AlertCall
  cancelCalls : Nat
  deriving Repr, DecidableEq

/-- Observable outcome of one `writeToTag` invocation in the `part_000`
variant, which additionally tracks the final value of the `isWriting` busy
flag. -/
structure WriteResultB where
  written : Option NdefMessage
  alert : Option AlertCall
  isWritingFinal : Bool
  cancelCalls : Nat
  deriving Repr, DecidableEq

/-- A record of a tag's NDEF message as returned by `getNdefMessage` in the
read path: its `payload` may be `null`/missing. -/
structure ReadRecord where
  payload : Option (List Nat)
  deriving Repr, DecidableEq

/-- The object resolved by `NfcManager.ndefHandler.getNdefMessage`: its
`ndefMessage` field may be `null`/missing. -/
structure NdefRead where
  ndefMessage : Option (List ReadRecord)
  deriving Repr, DecidableEq

/-- Outcomes of the platform calls awaited by `readTag`:
`requestTechnology`, `getTag` (whose resolved value is only logged) and
`getNdefMessage` each either resolve or reject. -/
structure ReadEnv where
  requestTechnology : Except ErrMsg Unit
  getTag : Except ErrMsg Unit
  getNdefMessage : Except ErrMsg (Option NdefRead)
  deriving Repr

/-- Observable outcome of one `readTag` invocation: the update applied to
`lastRead` (`none` when `setLastRead` was not called), the alert surfaced,
the final value of the `isReading` busy flag, and how often
`cancelTechnologyRequest` was called. -/
structure ReadResult where
  lastReadUpdate : Option Str
  alert : Option AlertCall
  isReadingFinal : Bool
  cancelCalls : Nat
  deriving Repr, DecidableEq

/-- Models the library's `Ndef.text.decodePayload`: the first byte of a
text-record payload is the status byte, whose low six bits give the length
of the language code to skip; the remaining bytes are decoded as UTF-8
(the UTF-16 flag bit is not modelled; no verified behaviour reaches this
function, see `readTag`). -/
def ndefTextDecodePayload (payload : List Nat) : Str :=
  match payload with
  | [] => []
  | status :: rest => utf8DecodeReplace (rest.drop (status % 64))

namespace AppTsx

/-- `const SCHEME = 'nfcmsg'` of `src/App.tsx`. -/
def SCHEME : Str := str "nfcmsg"

/-- `const HOST = 'read'` of `src/App.tsx`. -/
def HOST : Str := str "read"

/-- `buildDeepLink` of `src/App.tsx`: the template literal
`` `${SCHEME}://${HOST}?m=${encoded}` `` with
`encoded = encodeURIComponent(message)`. -/
def buildDeepLink (message : Str) : Str :=
  SCHEME ++ str "://" ++ HOST ++ str "?m=" ++ encodeURIComponent message

/-- `parseMessageFromUrl` of `src/App.tsx`. The `url?: string | null`
parameter is an `Option Str` (`none` for `null`/`undefined`); a JavaScript
falsy check `!url` also rejects the empty string. Only the protocol is
checked (`u.protocol !== `${SCHEME}:``); the host is deliberately ignored.
`raw ? decodeURIComponent(raw) : null` rejects an empty `raw`, and the
surrounding `try`/`catch` converts a `URL` constructor `TypeError` or a
`decodeURIComponent` `URIError` into `null`, modelled by the `none`
branches. -/
def parseMessageFromUrl (url : Option Str) : Option Str :=
  match url with
  | none => none
  | some u =>
    if u = [] then none
    else
      match parseURL u with
      | none => none
      | some rec =>
        if rec.protocol ≠ SCHEME ++ [':'] then none
        else
          match searchParamsGet (str "m") rec.search with
          | none => none
          | some raw =>
            if raw = [] then none
            else
              match decodeURIComponentJS raw with
              | some msg => some msg
              | none => none

/-- The cold-start branch of the deep-link `useEffect`: the
`Linking.getInitialURL().then(...)` handler. `lastRead` is updated only
when the parsed message is truthy; otherwise the prior state is kept. -/
def handleInitialUrl (lastRead : Option Str) (url : Option Str) : Option Str :=
  match parseMessageFromUrl url with
  | some msg => if msg = [] then lastRead else some msg
  | none => lastRead

/-- The running-app branch of the deep-link `useEffect`: the
`Linking.addEventListener('url', ...)` handler. A truthy parsed message
updates `lastRead`; otherwise `lastRead` is set to the sentinel
`'No message found'`. -/
def handleUrlEvent (lastRead : Option Str) (url : Str) : Option Str :=
  match parseMessageFromUrl (some url) with
  | some msg => if msg = [] then some (str "No message found") else some msg
  | none => some (str "No message found")

/-- `writeToTag` of `src/App.tsx`, closed over `deepLink`. The `try` body
builds the message, awaits `requestTechnology` then `writeNdefMessage`,
and surfaces a success alert; the `catch` surfaces an error alert; the
`finally` always calls `cancelTechnologyRequest` (its own rejection is
swallowed by `.catch(() => ...)`). -/
def writeToTag (deepLink : Str) (env : WriteEnv) : WriteResultA :=
  let uri := deepLink
  let bytes := ndefEncodeMessage [ndefUriRecord uri]
  let body : WriteResultA :=
    match env.requestTechnology with
    | .error e => { written := none, alert := some ⟨str "NFC error", e⟩, cancelCalls := 0 }
    | .ok _ =>
      match env.writeNdefMessage with
      | .error e => { written := none, alert := some ⟨str "NFC error", e⟩, cancelCalls := 0 }
      | .ok _ =>
        { written := some bytes
          alert := some ⟨str "Success", str "Wrote tag:\n" ++ uri⟩
          cancelCalls := 0 }
  { body with cancelCalls := body.cancelCalls + 1 }

end AppTsx

namespace Part000

/-- `const SCHEME = 'https'` of `src/unnamed/part_000`. -/
def SCHEME : Str := str "https"

/-- `const HOST = 'nfcmsg.test'` of `src/unnamed/part_000`. -/
def HOST : Str := str "nfcmsg.test"

/-- `buildDeepLink` of `src/unnamed/part_000`: the template literal
`` `${SCHEME}://${HOST}/read?m=${encoded}` ``. -/
def buildDeepLink (message : Str) : Str :=
  SCHEME ++ str "://" ++ HOST ++ str "/read?m=" ++ encodeURIComponent message

/-- `parseMessageFromUrl` of `src/unnamed/part_000`: as in the `App.tsx`
variant, but the strict profile checks both the protocol and the hostname
(`u.protocol !== `${SCHEME}:` || u.hostname !== HOST`). -/
def parseMessageFromUrl (url : Option Str) : Option Str :=
  match url with
  | none => none
  | some u =>
    if u = [] then none
    else
      match parseURL u with
      | none => none
      | some rec =>
        if rec.protocol ≠ SCHEME ++ [':'] ∨ rec.hostname ≠ HOST then none
        else
          match searchParamsGet (str "m") rec.search with
          | none => none
          | some raw =>
            if raw = [] then none
            else
              match decodeURIComponentJS raw with
              | some msg => some msg
              | none => none

/-- The cold-start branch of the deep-link `useEffect` of
`src/unnamed/part_000`. -/
def handleInitialUrl (lastRead : Option Str) (url : Option Str) : Option Str :=
  match parseMessageFromUrl url with
  | some msg => if msg = [] then lastRead else some msg
  | none => lastRead

/-- The running-app branch of the deep-link `useEffect` of
`src/unnamed/part_000`. -/
def handleUrlEvent (lastRead : Option Str) (url : Str) : Option Str :=
  match parseMessageFromUrl (some url) with
  | some msg => if msg = [] then some (str "No message found") else some msg
  | none => some (str "No message found")

/-- `writeToTag` of `src/unnamed/part_000`: as in `App.tsx`, with the
`isWriting` busy flag set on entry and cleared in the `finally` block
before `cancelTechnologyRequest` is called. -/
def writeToTag (deepLink : Str) (env : WriteEnv) : WriteResultB :=
  let uri := deepLink
  let bytes := ndefEncodeMessage [ndefUriRecord uri]
  let body : WriteResultB :=
    match env.requestTechnology with
    | .error e =>
      { written := none, alert := some ⟨str "NFC error", e⟩
        isWritingFinal := true, cancelCalls := 0 }
    | .ok _ =>
      match env.writeNdefMessage with
      | .error e =>
        { written := none, alert := some ⟨str "NFC error", e⟩
          isWritingFinal := true, cancelCalls := 0 }
      | .ok _ =>
        { written := some bytes
          alert := some ⟨str "Success", str "Wrote tag:\n" ++ uri⟩
          isWritingFinal := true, cancelCalls := 0 }
  { body with isWritingFinal := false, cancelCalls := body.cancelCalls + 1 }

/-- `readTag` of `src/unnamed/part_000`. The `try` body sets `isReading`,
awaits `requestTechnology`, `getTag` (result only logged) and
`getNdefMessage`; `setLastRead` runs only when the optional chain
`ndef?.ndefMessage?.length` is truthy (message present and nonempty) and
`record?.payload` is truthy (payload present; in JavaScript an empty byte
array object is still truthy), in which case the decoded text — or, when
it is empty, the sentinel `'No message found'` — is stored. The `catch`
surfaces an error alert; the `finally` clears `isReading` and always calls
`cancelTechnologyRequest`. -/
def readTag (env : ReadEnv) : ReadResult :=
  let body : ReadResult :=
    match env.requestTechnology with
    | .error e =>
      { lastReadUpdate := none, alert := some ⟨str "NFC error", e⟩
        isReadingFinal := true, cancelCalls := 0 }
    | .ok _ =>
      match env.getTag with
      | .error e =>
        { lastReadUpdate := none, alert := some ⟨str "NFC error", e⟩
          isReadingFinal := true, cancelCalls := 0 }
      | .ok _ =>
        match env.getNdefMessage with
        | .error e =>
          { lastReadUpdate := none, alert := some ⟨str "NFC error", e⟩
            isReadingFinal := true, cancelCalls := 0 }
        | .ok ndef =>
          let update : Option Str :=
            match ndef with
            | none => none
            | some nd =>
              match nd.ndefMessage with
              | none => none
              | some [] => none
              | some (record :: _) =>
                match record.payload with
                | none => none
                | some payload =>
                  let text := ndefTextDecodePayload payload
                  some (if text = [] then str "No message found" else text)
          { lastReadUpdate := update, alert := none
            isReadingFinal := true, cancelCalls := 0 }
  { body with isReadingFinal := false, cancelCalls := body.cancelCalls + 1 }

end Part000

theorem takeUntil_all {p : Char → Bool} {l : Str} (h : ∀ c ∈ l, p c = false) :
    takeUntil p l = (l, []) := by
  induction l with
  | nil => rfl
  | cons c r ih =>
    have hc := h c (List.mem_cons_self c r)
    simp [takeUntil, hc, ih fun d hd => h d (List.mem_cons_of_mem c hd)]

theorem splitOnChar_no_sep {sep : Char} {l : Str} (h : ∀ c ∈ l, ¬c = sep) :
    splitOnChar sep l = [l] := by
  induction l with
  | nil => rfl
  | cons c r ih =>
    have hc := h c (List.mem_cons_self c r)
    simp [splitOnChar, hc, ih fun d hd => h d (List.mem_cons_of_mem c hd)]

theorem map_id_on {f : Char → Char} {l : Str} (h : ∀ c ∈ l, f c = c) :
    l.map f = l := by
  induction l with
  | nil => rfl
  | cons c r ih =>
    simp [h c (List.mem_cons_self c r), ih fun d hd => h d (List.mem_cons_of_mem c hd)]

theorem char_scalar_ranges (c : Char) :
    c.toNat < 0xD800 ∨ (0xE000 ≤ c.toNat ∧ c.toNat < 0x110000) := by
  have h := c.valid
  unfold UInt32.isValidChar Nat.isValidChar at h
  have e : c.toNat = c.val.toNat := rfl
  rw [e]; omega

theorem char_toNat_lt (c : Char) : c.toNat < 0x110000 := by
  rcases char_scalar_ranges c with h | h <;> omega

theorem isHexDigit_hexDigitChar {n : Nat} (h : n < 16) :
    isHexDigit (hexDigitChar n) = true := by
  interval_cases n <;> decide

theorem hexVal_hexDigitChar {n : Nat} (h : n < 16) :
    hexVal (hexDigitChar n) = n := by
  interval_cases n <;> decide

theorem utf8Encode_lt256 {c : Char} : ∀ b ∈ utf8Encode c, b < 256 := by
  intro b hb
  have hlt := char_toNat_lt c
  simp only [utf8Encode] at hb
  split_ifs at hb <;> simp at hb <;> omega

theorem utf8Encode_ascii {c : Char} (h : c.toNat < 128) :
    utf8Encode c = [c.toNat] := by
  simp [utf8Encode, h]

theorem isCont_eq {b : Nat} (h1 : 0x80 ≤ b) (h2 : b < 0xC0) : isCont b = true := by
  simp [isCont]; omega

theorem utf8DecodeReplaceAux_fuel :
    ∀ (f1 f2 : Nat) (l : List Nat), l.length ≤ f1 → l.length ≤ f2 →
      utf8DecodeReplaceAux f1 l = utf8DecodeReplaceAux f2 l := by
  intro f1
  induction f1 with
  | zero =>
    intro f2 l h1 h2
    have : l = [] := List.eq_nil_of_length_eq_zero (Nat.le_zero.mp h1)
    subst this
    cases f2 <;> rfl
  | succ f ih =>
    intro f2 l h1 h2
    match l with
    | [] => cases f2 <;> rfl
    | b :: r =>
      match f2 with
      | 0 => simp at h2
      | g + 1 =>
        simp only [utf8DecodeReplaceAux]
        congr 1
        apply ih
        · rw [List.length_drop]
          simp only [List.length_cons] at h1
          omega
        · rw [List.length_drop]
          simp only [List.length_cons] at h2
          omega

theorem utf8DecodeReplace_cons (b : Nat) (r : List Nat) :
    utf8DecodeReplace (b :: r) =
      (utf8StepReplace b r).1 ::
        utf8DecodeReplace (r.drop (utf8StepReplace b r).2) := by
  show utf8DecodeReplaceAux (r.length + 1) (b :: r) = _
  simp only [utf8DecodeReplaceAux]
  congr 1
  apply utf8DecodeReplaceAux_fuel
  · rw [List.length_drop]; omega
  · exact le_rfl

theorem utf8DecodeStrictAux_fuel :
    ∀ (f1 f2 : Nat) (l : List Nat), l.length ≤ f1 → l.length ≤ f2 →
      utf8DecodeStrictAux f1 l = utf8DecodeStrictAux f2 l := by
  intro f1
  induction f1 with
  | zero =>
    intro f2 l h1 h2
    have : l = [] := List.eq_nil_of_length_eq_zero (Nat.le_zero.mp h1)
    subst this
    cases f2 <;> rfl
  | succ f ih =>
    intro f2 l h1 h2
    match l with
    | [] => cases f2 <;> rfl
    | b :: r =>
      match f2 with
      | 0 => simp at h2
      | g + 1 =>
        simp only [utf8DecodeStrictAux]
        rcases hs : utf8StepStrict b r with _ | p
        · rfl
        · have he : utf8DecodeStrictAux f (r.drop p.2) = utf8DecodeStrictAux g (r.drop p.2) := by
            apply ih
            · rw [List.length_drop]
              simp only [List.length_cons] at h1
              omega
            · rw [List.length_drop]
              simp only [List.length_cons] at h2
              omega
          simp only [he]

theorem utf8DecodeStrict_cons (b : Nat) (r : List Nat) :
    utf8DecodeStrict (b :: r) =
      match utf8StepStrict b r with
      | none => none
      | some p => (utf8DecodeStrict (r.drop p.2)).map (p.1 :: ·) := by
  show utf8DecodeStrictAux (r.length + 1) (b :: r) = _
  simp only [utf8DecodeStrictAux]
  rcases hs : utf8StepStrict b r with _ | p
  · rfl
  · have he : utf8DecodeStrictAux r.length (r.drop p.2)
        = utf8DecodeStrict (r.drop p.2) := by
      apply utf8DecodeStrictAux_fuel
      · rw [List.length_drop]; omega
      · exact le_rfl
    simp only [he]

theorem utf8DecodeReplace_encode (c : Char) (t : List Nat) :
    utf8DecodeReplace (utf8Encode c ++ t) = c :: utf8DecodeReplace t := by
  have hv := char_scalar_ranges c
  have hofn : Char.ofNat c.toNat = c := Char.ofNat_toNat c
  by_cases h1 : c.toNat < 0x80
  · rw [utf8Encode_ascii h1]
    show utf8DecodeReplace (c.toNat :: t) = c :: utf8DecodeReplace t
    have hstep : utf8StepReplace c.toNat t = (c, 0) := by
      simp only [utf8StepReplace, h1, if_true, ite_true, hofn]
    rw [utf8DecodeReplace_cons, hstep]; rfl
  · by_cases h2 : c.toNat < 0x800
    · have he : utf8Encode c = [0xC0 + c.toNat / 64, 0x80 + c.toNat % 64] := by
        unfold utf8Encode
        rw [if_neg h1, if_pos h2]
      rw [he]
      show utf8DecodeReplace
        ((0xC0 + c.toNat / 64) :: (0x80 + c.toNat % 64) :: t) = c :: utf8DecodeReplace t
      have ha : ¬ (0xC0 + c.toNat / 64 < 0x80) := by omega
      have hb : ¬ (0xC0 + c.toNat / 64 < 0xC2) := by omega
      have hc : (0xC0 + c.toNat / 64 < 0xE0) := by omega
      have hcont : isCont (0x80 + c.toNat % 64) = true := isCont_eq (by omega) (by omega)
      have hval : (0xC0 + c.toNat / 64 - 0xC0) * 64 + (0x80 + c.toNat % 64 - 0x80)
          = c.toNat := by omega
      have hstep : utf8StepReplace (0xC0 + c.toNat / 64) ((0x80 + c.toNat % 64) :: t)
          = (c, 1) := by
        simp only [utf8StepReplace, ha, hb, hc, hcont, if_true, if_false, ite_true,
          ite_false, if_neg, if_pos, not_false_iff, hval, hofn]
      rw [utf8DecodeReplace_cons, hstep]; rfl
    · by_cases h3 : c.toNat < 0x10000
      · have he : utf8Encode c =
            [0xE0 + c.toNat / 4096, 0x80 + c.toNat / 64 % 64, 0x80 + c.toNat % 64] := by
          unfold utf8Encode
          rw [if_neg h1, if_neg h2, if_pos h3]
        rw [he]
        show utf8DecodeReplace ((0xE0 + c.toNat / 4096) :: (0x80 + c.toNat / 64 % 64) ::
          (0x80 + c.toNat % 64) :: t) = c :: utf8DecodeReplace t
        have ha : ¬ (0xE0 + c.toNat / 4096 < 0x80) := by omega
        have hb : ¬ (0xE0 + c.toNat / 4096 < 0xC2) := by omega
        have hc : ¬ (0xE0 + c.toNat / 4096 < 0xE0) := by omega
        have hd : (0xE0 + c.toNat / 4096 < 0xF0) := by omega
        have hc1 : isCont (0x80 + c.toNat / 64 % 64) = true := isCont_eq (by omega) (by omega)
        have hc2 : isCont (0x80 + c.toNat % 64) = true := isCont_eq (by omega) (by omega)
        have hval : (0xE0 + c.toNat / 4096 - 0xE0) * 4096 +
            (0x80 + c.toNat / 64 % 64 - 0x80) * 64 + (0x80 + c.toNat % 64 - 0x80)
            = c.toNat := by omega
        have hguard : (0x800 ≤ c.toNat && !(0xD800 ≤ c.toNat && c.toNat < 0xE000)) = true := by
          simp only [Bool.and_eq_true, Bool.not_eq_true', Bool.and_eq_false_iff,
            decide_eq_true_eq, decide_eq_false_iff_not]
          omega
        have hstep : utf8StepReplace (0xE0 + c.toNat / 4096)
            ((0x80 + c.toNat / 64 % 64) :: (0x80 + c.toNat % 64) :: t) = (c, 2) := by
          simp only [utf8StepReplace, ha, hb, hc, hd, hc1, hc2, Bool.and_self, if_true,
            if_false, ite_true, ite_false, if_neg, if_pos, not_false_iff, Bool.and_true,
            Bool.true_and, hval, hguard, hofn]
        rw [utf8DecodeReplace_cons, hstep]; rfl
      · have h4 : c.toNat < 0x110000 := char_toNat_lt c
        have he : utf8Encode c =
            [0xF0 + c.toNat / 262144, 0x80 + c.toNat / 4096 % 64,
              0x80 + c.toNat / 64 % 64, 0x80 + c.toNat % 64] := by
          unfold utf8Encode
          rw [if_neg h1, if_neg h2, if_neg h3]
        rw [he]
        show utf8DecodeReplace ((0xF0 + c.toNat / 262144) :: (0x80 + c.toNat / 4096 % 64) ::
          (0x80 + c.toNat / 64 % 64) :: (0x80 + c.toNat % 64) :: t) = c :: utf8DecodeReplace t
        have ha : ¬ (0xF0 + c.toNat / 262144 < 0x80) := by omega
        have hb : ¬ (0xF0 + c.toNat / 262144 < 0xC2) := by omega
        have hc : ¬ (0xF0 + c.toNat / 262144 < 0xE0) := by omega
        have hd : ¬ (0xF0 + c.toNat / 262144 < 0xF0) := by omega
        have hf : (0xF0 + c.toNat / 262144 < 0xF5) := by omega
        have hc1 : isCont (0x80 + c.toNat / 4096 % 64) = true := isCont_eq (by omega) (by omega)
        have hc2 : isCont (0x80 + c.toNat / 64 % 64) = true := isCont_eq (by omega) (by omega)
        have hc3 : isCont (0x80 + c.toNat % 64) = true := isCont_eq (by omega) (by omega)
        have hval : (0xF0 + c.toNat / 262144 - 0xF0) * 262144 +
            (0x80 + c.toNat / 4096 % 64 - 0x80) * 4096 +
            (0x80 + c.toNat / 64 % 64 - 0x80) * 64 + (0x80 + c.toNat % 64 - 0x80)
            = c.toNat := by omega
        have hguard : (0x10000 ≤ c.toNat && c.toNat < 0x110000) = true := by
          simp only [Bool.and_eq_true, decide_eq_true_eq]
          omega
        have hstep : utf8StepReplace (0xF0 + c.toNat / 262144)
            ((0x80 + c.toNat / 4096 % 64) :: (0x80 + c.toNat / 64 % 64) ::
              (0x80 + c.toNat % 64) :: t) = (c, 3) := by
          simp only [utf8StepReplace, ha, hb, hc, hd, hf, hc1, hc2, hc3, Bool.and_self,
            if_true, if_false, ite_true, ite_false, if_neg, if_pos, not_false_iff,
            Bool.and_true, Bool.true_and, hval, hguard, hofn]
        rw [utf8DecodeReplace_cons, hstep]; rfl

theorem utf8DecodeStrict_encode (c : Char) (t : List Nat) :
    utf8DecodeStrict (utf8Encode c ++ t) = (utf8DecodeStrict t).map (c :: ·) := by
  have hv := char_scalar_ranges c
  have hofn : Char.ofNat c.toNat = c := Char.ofNat_toNat c
  by_cases h1 : c.toNat < 0x80
  · rw [utf8Encode_ascii h1]
    show utf8DecodeStrict (c.toNat :: t) = (utf8DecodeStrict t).map (c :: ·)
    have hstep : utf8StepStrict c.toNat t = some (c, 0) := by
      simp only [utf8StepStrict, h1, if_true, ite_true, hofn]
    rw [utf8DecodeStrict_cons, hstep]; rfl
  · by_cases h2 : c.toNat < 0x800
    · have he : utf8Encode c = [0xC0 + c.toNat / 64, 0x80 + c.toNat % 64] := by
        unfold utf8Encode
        rw [if_neg h1, if_pos h2]
      rw [he]
      show utf8DecodeStrict
        ((0xC0 + c.toNat / 64) :: (0x80 + c.toNat % 64) :: t) = (utf8DecodeStrict t).map (c :: ·)
      have ha : ¬ (0xC0 + c.toNat / 64 < 0x80) := by omega
      have hb : ¬ (0xC0 + c.toNat / 64 < 0xC2) := by omega
      have hc : (0xC0 + c.toNat / 64 < 0xE0) := by omega
      have hcont : isCont (0x80 + c.toNat % 64) = true := isCont_eq (by omega) (by omega)
      have hval : (0xC0 + c.toNat / 64 - 0xC0) * 64 + (0x80 + c.toNat % 64 - 0x80)
          = c.toNat := by omega
      have hstep : utf8StepStrict (0xC0 + c.toNat / 64) ((0x80 + c.toNat % 64) :: t)
          = some (c, 1) := by
        simp only [utf8StepStrict, ha, hb, hc, hcont, if_true, if_false, ite_true,
          ite_false, if_neg, if_pos, not_false_iff, hval, hofn]
      rw [utf8DecodeStrict_cons, hstep]; rfl
    · by_cases h3 : c.toNat < 0x10000
      · have he : utf8Encode c =
            [0xE0 + c.toNat / 4096, 0x80 + c.toNat / 64 % 64, 0x80 + c.toNat % 64] := by
          unfold utf8Encode
          rw [if_neg h1, if_neg h2, if_pos h3]
        rw [he]
        show utf8DecodeStrict ((0xE0 + c.toNat / 4096) :: (0x80 + c.toNat / 64 % 64) ::
          (0x80 + c.toNat % 64) :: t) = (utf8DecodeStrict t).map (c :: ·)
        have ha : ¬ (0xE0 + c.toNat / 4096 < 0x80) := by omega
        have hb : ¬ (0xE0 + c.toNat / 4096 < 0xC2) := by omega
        have hc : ¬ (0xE0 + c.toNat / 4096 < 0xE0) := by omega
        have hd : (0xE0 + c.toNat / 4096 < 0xF0) := by omega
        have hc1 : isCont (0x80 + c.toNat / 64 % 64) = true := isCont_eq (by omega) (by omega)
        have hc2 : isCont (0x80 + c.toNat % 64) = true := isCont_eq (by omega) (by omega)
        have hval : (0xE0 + c.toNat / 4096 - 0xE0) * 4096 +
            (0x80 + c.toNat / 64 % 64 - 0x80) * 64 + (0x80 + c.toNat % 64 - 0x80)
            = c.toNat := by omega
        have hguard : (0x800 ≤ c.toNat && !(0xD800 ≤ c.toNat && c.toNat < 0xE000)) = true := by
          simp only [Bool.and_eq_true, Bool.not_eq_true', Bool.and_eq_false_iff,
            decide_eq_true_eq, decide_eq_false_iff_not]
          omega
        have hstep : utf8StepStrict (0xE0 + c.toNat / 4096)
            ((0x80 + c.toNat / 64 % 64) :: (0x80 + c.toNat % 64) :: t) = some (c, 2) := by
          simp only [utf8StepStrict, ha, hb, hc, hd, hc1, hc2, Bool.and_self, if_true,
            if_false, ite_true, ite_false, if_neg, if_pos, not_false_iff, Bool.and_true,
            Bool.true_and, hval, hguard, hofn]
        rw [utf8DecodeStrict_cons, hstep]; rfl
      · have h4 : c.toNat < 0x110000 := char_toNat_lt c
        have he : utf8Encode c =
            [0xF0 + c.toNat / 262144, 0x80 + c.toNat / 4096 % 64,
              0x80 + c.toNat / 64 % 64, 0x80 + c.toNat % 64] := by
          unfold utf8Encode
          rw [if_neg h1, if_neg h2, if_neg h3]
        rw [he]
        show utf8DecodeStrict ((0xF0 + c.toNat / 262144) :: (0x80 + c.toNat / 4096 % 64) ::
          (0x80 + c.toNat / 64 % 64) :: (0x80 + c.toNat % 64) :: t)
          = (utf8DecodeStrict t).map (c :: ·)
        have ha : ¬ (0xF0 + c.toNat / 262144 < 0x80) := by omega
        have hb : ¬ (0xF0 + c.toNat / 262144 < 0xC2) := by omega
        have hc : ¬ (0xF0 + c.toNat / 262144 < 0xE0) := by omega
        have hd : ¬ (0xF0 + c.toNat / 262144 < 0xF0) := by omega
        have hf : (0xF0 + c.toNat / 262144 < 0xF5) := by omega
        have hc1 : isCont (0x80 + c.toNat / 4096 % 64) = true := isCont_eq (by omega) (by omega)
        have hc2 : isCont (0x80 + c.toNat / 64 % 64) = true := isCont_eq (by omega) (by omega)
        have hc3 : isCont (0x80 + c.toNat % 64) = true := isCont_eq (by omega) (by omega)
        have hval : (0xF0 + c.toNat / 262144 - 0xF0) * 262144 +
            (0x80 + c.toNat / 4096 % 64 - 0x80) * 4096 +
            (0x80 + c.toNat / 64 % 64 - 0x80) * 64 + (0x80 + c.toNat % 64 - 0x80)
            = c.toNat := by omega
        have hguard : (0x10000 ≤ c.toNat && c.toNat < 0x110000) = true := by
          simp only [Bool.and_eq_true, decide_eq_true_eq]
          omega
        have hstep : utf8StepStrict (0xF0 + c.toNat / 262144)
            ((0x80 + c.toNat / 4096 % 64) :: (0x80 + c.toNat / 64 % 64) ::
              (0x80 + c.toNat % 64) :: t) = some (c, 3) := by
          simp only [utf8StepStrict, ha, hb, hc, hd, hf, hc1, hc2, hc3, Bool.and_self,
            if_true, if_false, ite_true, ite_false, if_neg, if_pos, not_false_iff,
            Bool.and_true, Bool.true_and, hval, hguard, hofn]
        rw [utf8DecodeStrict_cons, hstep]; rfl

theorem utf8DecodeReplace_nil : utf8DecodeReplace [] = [] := rfl

theorem utf8DecodeStrict_nil : utf8DecodeStrict [] = some [] := rfl

theorem utf8DecodeReplace_bytes (s : Str) : utf8DecodeReplace (utf8Bytes s) = s := by
  induction s with
  | nil => exact utf8DecodeReplace_nil
  | cons c s ih =>
    show utf8DecodeReplace (utf8Encode c ++ utf8Bytes s) = c :: s
    rw [utf8DecodeReplace_encode, ih]

theorem utf8DecodeStrict_bytes (s : Str) : utf8DecodeStrict (utf8Bytes s) = some s := by
  induction s with
  | nil => exact utf8DecodeStrict_nil
  | cons c s ih =>
    show utf8DecodeStrict (utf8Encode c ++ utf8Bytes s) = some (c :: s)
    rw [utf8DecodeStrict_encode, ih]; rfl

theorem percentDecodeLooseAux_fuel :
    ∀ (f1 f2 : Nat) (l : Str), l.length ≤ f1 → l.length ≤ f2 →
      percentDecodeLooseAux f1 l = percentDecodeLooseAux f2 l := by
  intro f1
  induction f1 with
  | zero =>
    intro f2 l h1 h2
    have : l = [] := List.eq_nil_of_length_eq_zero (Nat.le_zero.mp h1)
    subst this
    cases f2 <;> rfl
  | succ f ih =>
    intro f2 l h1 h2
    match l with
    | [] => cases f2 <;> rfl
    | c :: r =>
      match f2 with
      | 0 => simp at h2
      | g + 1 =>
        simp only [percentDecodeLooseAux]
        congr 1
        apply ih
        · rw [List.length_drop]
          simp only [List.length_cons] at h1
          omega
        · rw [List.length_drop]
          simp only [List.length_cons] at h2
          omega

theorem percentDecodeLoose_nil : percentDecodeLoose [] = [] := rfl

theorem percentDecodeLoose_cons (c : Char) (r : Str) :
    percentDecodeLoose (c :: r) =
      (percentStepLoose c r).1 ++
        percentDecodeLoose (r.drop (percentStepLoose c r).2) := by
  show percentDecodeLooseAux (r.length + 1) (c :: r) = _
  simp only [percentDecodeLooseAux]
  congr 1
  apply percentDecodeLooseAux_fuel
  · rw [List.length_drop]; omega
  · exact le_rfl

theorem percentStepLoose_other {c : Char} (r : Str) (h : ¬ c = '%') :
    percentStepLoose c r = (utf8Encode c, 0) := by
  simp [percentStepLoose, h]

theorem percentDecodeLoose_cons_other {c : Char} {r : Str} (h : ¬ c = '%') :
    percentDecodeLoose (c :: r) = utf8Encode c ++ percentDecodeLoose r := by
  rw [percentDecodeLoose_cons, percentStepLoose_other r h]
  rfl

theorem percentStepLoose_escape {b : Nat} (hb : b < 256) (t : Str) :
    percentStepLoose '%' (hexDigitChar (b / 16) :: hexDigitChar (b % 16) :: t)
      = ([b], 2) := by
  have h1 : isHexDigit (hexDigitChar (b / 16)) = true := isHexDigit_hexDigitChar (by omega)
  have h2 : isHexDigit (hexDigitChar (b % 16)) = true := isHexDigit_hexDigitChar (by omega)
  have e1 : hexVal (hexDigitChar (b / 16)) = b / 16 := hexVal_hexDigitChar (by omega)
  have e2 : hexVal (hexDigitChar (b % 16)) = b % 16 := hexVal_hexDigitChar (by omega)
  have e3 : b / 16 * 16 + b % 16 = b := by omega
  simp only [percentStepLoose, eq_self_iff_true, if_true, ite_true, h1, h2,
    Bool.and_self, e1, e2, e3]

theorem percentDecodeLoose_percentByte {b : Nat} (hb : b < 256) (t : Str) :
    percentDecodeLoose (percentByte b ++ t) = b :: percentDecodeLoose t := by
  show percentDecodeLoose
    ('%' :: hexDigitChar (b / 16) :: hexDigitChar (b % 16) :: t) = _
  rw [percentDecodeLoose_cons, percentStepLoose_escape hb]
  rfl

theorem mem_concatMap {f : α → List β} {l : List α} {b : β} :
    b ∈ concatMap f l ↔ ∃ a ∈ l, b ∈ f a := by
  induction l with
  | nil => simp [concatMap]
  | cons a as ih => simp [concatMap, ih, List.mem_append]

theorem percentDecodeLoose_concat {bs : List Nat} (h : ∀ b ∈ bs, b < 256) (t : Str) :
    percentDecodeLoose (concatMap percentByte bs ++ t) = bs ++ percentDecodeLoose t := by
  induction bs with
  | nil => rfl
  | cons b bs ih =>
    show percentDecodeLoose ((percentByte b ++ concatMap percentByte bs) ++ t) = _
    rw [List.append_assoc,
      percentDecodeLoose_percentByte (h b (List.mem_cons_self b bs)),
      ih fun x hx => h x (List.mem_cons_of_mem b hx)]
    rfl

theorem unescaped_ne {c : Char} (h : isUriUnescaped c = true) {d : Char}
    (hd : isUriUnescaped d = false) : ¬ c = d := by
  intro e
  rw [e, hd] at h
  exact Bool.noConfusion h

theorem percentDecodeLoose_encode (s t : Str) :
    percentDecodeLoose (encodeURIComponent s ++ t) = utf8Bytes s ++ percentDecodeLoose t := by
  induction s with
  | nil => rfl
  | cons c s ih =>
    show percentDecodeLoose
      (((if isUriUnescaped c then [c] else concatMap percentByte (utf8Encode c)) ++
        encodeURIComponent s) ++ t) = (utf8Encode c ++ utf8Bytes s) ++ percentDecodeLoose t
    rw [List.append_assoc]
    by_cases hu : isUriUnescaped c = true
    · rw [if_pos hu]
      show percentDecodeLoose (c :: (encodeURIComponent s ++ t)) = _
      rw [percentDecodeLoose_cons_other
        (unescaped_ne hu (by decide : isUriUnescaped '%' = false)), ih,
        List.append_assoc]
    · rw [if_neg hu, percentDecodeLoose_concat (fun b hb => utf8Encode_lt256 b hb), ih,
        List.append_assoc]

/-- The characters that can occur in an `encodeURIComponent` output:
unescaped characters, `%`, and hexadecimal digits. -/
def encSafe (c : Char) : Prop :=
  isUriUnescaped c = true ∨ c = '%' ∨ isHexDigit c = true

theorem encodeURIComponent_safe {s : Str} :
    ∀ c ∈ encodeURIComponent s, encSafe c := by
  intro c hc
  unfold encodeURIComponent at hc
  rw [mem_concatMap] at hc
  obtain ⟨a, _, hm⟩ := hc
  by_cases hu : isUriUnescaped a = true
  · rw [if_pos hu] at hm
    simp at hm
    subst hm
    exact Or.inl hu
  · rw [if_neg hu] at hm
    rw [mem_concatMap] at hm
    obtain ⟨b, hb, hcb⟩ := hm
    have hb256 : b < 256 := utf8Encode_lt256 b hb
    simp [percentByte] at hcb
    rcases hcb with h | h | h
    · exact Or.inr (Or.inl h)
    · subst h
      exact Or.inr (Or.inr (isHexDigit_hexDigitChar (by omega)))
    · subst h
      exact Or.inr (Or.inr (isHexDigit_hexDigitChar (by omega)))

theorem encSafe_ne {c : Char} (hc : encSafe c) {d : Char}
    (h1 : isUriUnescaped d = false) (h2 : ¬ d = '%') (h3 : isHexDigit d = false) :
    ¬ c = d := by
  intro e
  subst e
  rcases hc with h | h | h
  · rw [h1] at h; exact Bool.noConfusion h
  · exact h2 h
  · rw [h3] at h; exact Bool.noConfusion h

theorem percentDecodeStrict_nopercent {s : Str} (h : ∀ c ∈ s, ¬ c = '%') :
    percentDecodeStrict s = some (utf8Bytes s) := by
  induction s with
  | nil => rfl
  | cons c r ih =>
    have hc := h c (List.mem_cons_self c r)
    show percentDecodeStrict (c :: r) = _
    rw [percentDecodeStrict.eq_def]
    simp only [hc, if_false, ite_false, ih fun d hd => h d (List.mem_cons_of_mem c hd)]
    rfl

theorem decodeURIComponentJS_nopercent {s : Str} (h : ∀ c ∈ s, ¬ c = '%') :
    decodeURIComponentJS s = some s := by
  unfold decodeURIComponentJS
  rw [percentDecodeStrict_nopercent h]
  show utf8DecodeStrict (utf8Bytes s) = some s
  exact utf8DecodeStrict_bytes s

theorem plusToSpace_id {s : Str} (h : ∀ c ∈ s, ¬ c = '+') : plusToSpace s = s :=
  map_id_on fun c hc => by simp [h c hc]

theorem formDecode_encode (s : Str) : formDecode (encodeURIComponent s) = s := by
  unfold formDecode
  rw [plusToSpace_id fun c hc =>
    encSafe_ne (encodeURIComponent_safe c hc) (by decide) (by decide) (by decide)]
  have hl := percentDecodeLoose_encode s []
  rw [List.append_nil, percentDecodeLoose_nil, List.append_nil] at hl
  rw [hl]
  exact utf8DecodeReplace_bytes s

theorem searchParamsGet_m_enc (e : Str) (hamp : ∀ c ∈ e, ¬ c = '&') :
    searchParamsGet (str "m") ('m' :: '=' :: e) = some (formDecode e) := by
  have hq : ∀ c ∈ ('m' :: '=' :: e), ¬ c = '&' := by
    intro c hc
    rcases List.mem_cons.mp hc with h | hc2
    · subst h; decide
    rcases List.mem_cons.mp hc2 with h | hc3
    · subst h; decide
    · exact hamp c hc3
  unfold searchParamsGet formPairs
  rw [splitOnChar_no_sep hq]
  rfl

theorem menc_no_hash (s : Str) :
    ∀ c ∈ ('m' :: '=' :: encodeURIComponent s), (fun c => c == '#') c = false := by
  intro c hc
  rcases List.mem_cons.mp hc with h | hc2
  · subst h; decide
  rcases List.mem_cons.mp hc2 with h | hc3
  · subst h; decide
  · exact beq_eq_false_iff_ne.mpr
      (encSafe_ne (encodeURIComponent_safe c hc3) (by decide) (by decide) (by decide))

theorem parseURL_build_appTsx (s : Str) :
    parseURL (AppTsx.buildDeepLink s) =
      some ⟨str "nfcmsg:", str "read", 'm' :: '=' :: encodeURIComponent s⟩ := by
  have h0 : parseURL (AppTsx.buildDeepLink s) =
      some ⟨str "nfcmsg:", str "read",
        (takeUntil (fun c => c == '#') ('m' :: '=' :: encodeURIComponent s)).1⟩ := rfl
  rw [h0, takeUntil_all (menc_no_hash s)]

theorem parseURL_build_part000 (s : Str) :
    parseURL (Part000.buildDeepLink s) =
      some ⟨str "https:", str "nfcmsg.test", 'm' :: '=' :: encodeURIComponent s⟩ := by
  have h0 : parseURL (Part000.buildDeepLink s) =
      some ⟨str "https:", str "nfcmsg.test",
        (takeUntil (fun c => c == '#') ('m' :: '=' :: encodeURIComponent s)).1⟩ := rfl
  rw [h0, takeUntil_all (menc_no_hash s)]

theorem menc_no_amp (s : Str) : ∀ c ∈ encodeURIComponent s, ¬ c = '&' :=
  fun c hc =>
    encSafe_ne (encodeURIComponent_safe c hc) (by decide) (by decide) (by decide)

theorem roundtrip_appTsx (s : Str) (hne : ¬ s = []) (hp : ∀ c ∈ s, ¬ c = '%') :
    AppTsx.parseMessageFromUrl (some (AppTsx.buildDeepLink s)) = some s := by
  have hbne : ¬ (AppTsx.buildDeepLink s = []) := fun h => List.noConfusion h
  have hpr : ¬ (str "nfcmsg:" ≠ AppTsx.SCHEME ++ [':']) := by decide
  simp only [AppTsx.parseMessageFromUrl, parseURL_build_appTsx, hbne, if_false, ite_false,
    hpr, searchParamsGet_m_enc (encodeURIComponent s) (menc_no_amp s), formDecode_encode,
    hne, decodeURIComponentJS_nopercent hp]

theorem roundtrip_part000 (s : Str) (hne : ¬ s = []) (hp : ∀ c ∈ s, ¬ c = '%') :
    Part000.parseMessageFromUrl (some (Part000.buildDeepLink s)) = some s := by
  have hbne : ¬ (Part000.buildDeepLink s = []) := fun h => List.noConfusion h
  have hpr : ¬ (str "https:" ≠ Part000.SCHEME ++ [':'] ∨
      str "nfcmsg.test" ≠ Part000.HOST) := by decide
  simp only [Part000.parseMessageFromUrl, parseURL_build_part000, hbne, if_false, ite_false,
    hpr, searchParamsGet_m_enc (encodeURIComponent s) (menc_no_amp s), formDecode_encode,
    hne, decodeURIComponentJS_nopercent hp]

theorem utf8Encode_ne_nil (c : Char) : utf8Encode c ≠ [] := by
  simp only [utf8Encode]
  split_ifs <;> simp

theorem percentDecodeStrict_ne_nil {s : Str} {bs : List Nat}
    (h : percentDecodeStrict s = some bs) (hs : s ≠ []) : bs ≠ [] := by
  match s with
  | c :: r =>
    rw [percentDecodeStrict.eq_def] at h
    by_cases hc : c = '%'
    · subst hc
      simp only [if_pos rfl] at h
      match r with
      | [] => simp at h
      | [h1] => simp at h
      | h1 :: h2 :: r2 =>
        by_cases hx : (isHexDigit h1 && isHexDigit h2) = true
        · simp only [hx, if_true, ite_true] at h
          obtain ⟨bs2, _, hb⟩ := Option.map_eq_some'.mp h
          subst hb
          simp
        · simp only [hx, if_false, ite_false] at h
          simp at h
    · simp only [hc, if_false, ite_false] at h
      obtain ⟨bs2, _, hb⟩ := Option.map_eq_some'.mp h
      subst hb
      simp [utf8Encode_ne_nil c]

theorem utf8DecodeStrict_ne_nil {bs : List Nat} {s : Str}
    (h : utf8DecodeStrict bs = some s) (hbs : bs ≠ []) : s ≠ [] := by
  match bs with
  | b :: r =>
    rw [utf8DecodeStrict_cons] at h
    rcases hs : utf8StepStrict b r with _ | p
    · rw [hs] at h; simp at h
    · rw [hs] at h
      have h2 : (utf8DecodeStrict (r.drop p.2)).map (p.1 :: ·) = some s := h
      obtain ⟨s2, _, he⟩ := Option.map_eq_some'.mp h2
      subst he
      simp

theorem decodeURIComponentJS_ne_nil {raw m : Str}
    (h : decodeURIComponentJS raw = some m) (hr : raw ≠ []) : m ≠ [] := by
  unfold decodeURIComponentJS at h
  rcases hps : percentDecodeStrict raw with _ | bs
  · rw [hps] at h; simp at h
  · rw [hps] at h
    have h2 : utf8DecodeStrict bs = some m := h
    exact utf8DecodeStrict_ne_nil h2 (percentDecodeStrict_ne_nil hps hr)

theorem parse_some_inv_appTsx {u m : Str}
    (h : AppTsx.parseMessageFromUrl (some u) = some m) :
    ∃ raw : Str, ¬ raw = [] ∧ decodeURIComponentJS raw = some m := by
  simp only [AppTsx.parseMessageFromUrl] at h
  by_cases hu : u = []
  · rw [if_pos hu] at h
    exact absurd h (by simp)
  · rw [if_neg hu] at h
    rcases hp : parseURL u with _ | rec
    · rw [hp] at h
      exact absurd (show (none : Option Str) = some m from h) (by simp)
    · rw [hp] at h
      have h1 : (if rec.protocol ≠ AppTsx.SCHEME ++ [':'] then none
          else
            match searchParamsGet (str "m") rec.search with
            | none => none
            | some raw =>
              if raw = [] then none
              else
                match decodeURIComponentJS raw with
                | some msg => some msg
                | none => none) = some m := h
      by_cases hpr : rec.protocol ≠ AppTsx.SCHEME ++ [':']
      · rw [if_pos hpr] at h1
        exact absurd h1 (by simp)
      · rw [if_neg hpr] at h1
        rcases hm : searchParamsGet (str "m") rec.search with _ | raw
        · rw [hm] at h1
          exact absurd (show (none : Option Str) = some m from h1) (by simp)
        · rw [hm] at h1
          have h2 : (if raw = [] then none
              else
                match decodeURIComponentJS raw with
                | some msg => some msg
                | none => none) = some m := h1
          by_cases hr : raw = []
          · rw [if_pos hr] at h2
            exact absurd h2 (by simp)
          · rw [if_neg hr] at h2
            rcases hd : decodeURIComponentJS raw with _ | msg
            · rw [hd] at h2
              exact absurd (show (none : Option Str) = some m from h2) (by simp)
            · rw [hd] at h2
              have h3 : some msg = some m := h2
              injection h3 with h4
              exact ⟨raw, hr, by rw [hd, h4]⟩

theorem parse_some_inv_part000 {u m : Str}
    (h : Part000.parseMessageFromUrl (some u) = some m) :
    ∃ raw : Str, ¬ raw = [] ∧ decodeURIComponentJS raw = some m := by
  simp only [Part000.parseMessageFromUrl] at h
  by_cases hu : u = []
  · rw [if_pos hu] at h
    exact absurd h (by simp)
  · rw [if_neg hu] at h
    rcases hp : parseURL u with _ | rec
    · rw [hp] at h
      exact absurd (show (none : Option Str) = some m from h) (by simp)
    · rw [hp] at h
      have h1 : (if rec.protocol ≠ Part000.SCHEME ++ [':'] ∨ rec.hostname ≠ Part000.HOST
            then none
          else
            match searchParamsGet (str "m") rec.search with
            | none => none
            | some raw =>
              if raw = [] then none
              else
                match decodeURIComponentJS raw with
                | some msg => some msg
                | none => none) = some m := h
      by_cases hpr : rec.protocol ≠ Part000.SCHEME ++ [':'] ∨ rec.hostname ≠ Part000.HOST
      · rw [if_pos hpr] at h1
        exact absurd h1 (by simp)
      · rw [if_neg hpr] at h1
        rcases hm : searchParamsGet (str "m") rec.search with _ | raw
        · rw [hm] at h1
          exact absurd (show (none : Option Str) = some m from h1) (by simp)
        · rw [hm] at h1
          have h2 : (if raw = [] then none
              else
                match decodeURIComponentJS raw with
                | some msg => some msg
                | none => none) = some m := h1
          by_cases hr : raw = []
          · rw [if_pos hr] at h2
            exact absurd h2 (by simp)
          · rw [if_neg hr] at h2
            rcases hd : decodeURIComponentJS raw with _ | msg
            · rw [hd] at h2
              exact absurd (show (none : Option Str) = some m from h2) (by simp)
            · rw [hd] at h2
              have h3 : some msg = some m := h2
              injection h3 with h4
              exact ⟨raw, hr, by rw [hd, h4]⟩

theorem parse_eval_appTsx {url : Str} {u : URLRec} (hp : parseURL url = some u) :
    AppTsx.parseMessageFromUrl (some url) =
      (if u.protocol ≠ str "nfcmsg:" then none
       else
         match searchParamsGet (str "m") u.search with
         | none => none
         | some raw =>
           if raw = [] then none
           else
             match decodeURIComponentJS raw with
             | some msg => some msg
             | none => none) := by
  have hune : ¬ url = [] := by
    intro e
    rw [e] at hp
    exact Option.noConfusion hp
  simp only [AppTsx.parseMessageFromUrl]
  rw [if_neg hune, hp]
  rfl

theorem parse_eval_part000 {url : Str} {u : URLRec} (hp : parseURL url = some u) :
    Part000.parseMessageFromUrl (some url) =
      (if u.protocol ≠ str "https:" ∨ u.hostname ≠ str "nfcmsg.test" then none
       else
         match searchParamsGet (str "m") u.search with
         | none => none
         | some raw =>
           if raw = [] then none
           else
             match decodeURIComponentJS raw with
             | some msg => some msg
             | none => none) := by
  have hune : ¬ url = [] := by
    intro e
    rw [e] at hp
    exact Option.noConfusion hp
  simp only [Part000.parseMessageFromUrl]
  rw [if_neg hune, hp]
  rfl

/-- C1: the round-trip law as stated in the spec is false: for the string
consisting of the single character `%`, and for the empty string, decoding
the deep link built from the string yields `none` rather than the string
itself, in both source variants. (The `%` failure comes from the double
decode — `searchParams.get` already percent-decodes, and the subsequent
`decodeURIComponent` then throws on the stray `%`; the empty-string failure
comes from the falsy check `raw ? ... : null`.) -/
theorem C1_link_codec_roundtrip_counterexample :
    AppTsx.parseMessageFromUrl (some (AppTsx.buildDeepLink (str "%"))) = none ∧
    Part000.parseMessageFromUrl (some (Part000.buildDeepLink (str "%"))) = none ∧
    AppTsx.parseMessageFromUrl (some (AppTsx.buildDeepLink (str ""))) = none ∧
    Part000.parseMessageFromUrl (some (Part000.buildDeepLink (str ""))) = none :=
  ⟨by decide, by decide, by decide, by decide⟩

/-- C1 (amended): for every nonempty string `s` containing no `%`
character — including arbitrary Unicode and reserved URL characters —
decoding the deep link built from `s` yields exactly `s`, in both source
variants. -/
theorem C1_link_codec_roundtrip (s : Str) (hne : ¬ s = []) (hp : ∀ c ∈ s, ¬ c = '%') :
    AppTsx.parseMessageFromUrl (some (AppTsx.buildDeepLink s)) = some s ∧
    Part000.parseMessageFromUrl (some (Part000.buildDeepLink s)) = some s :=
  ⟨roundtrip_appTsx s hne hp, roundtrip_part000 s hne hp⟩

/-- Witness for C1 (amended) at the concrete draft `"Hello from NFC"`. -/
theorem C1_link_codec_roundtrip_witness :
    AppTsx.parseMessageFromUrl (some (AppTsx.buildDeepLink (str "Hello from NFC")))
      = some (str "Hello from NFC") ∧
    Part000.parseMessageFromUrl (some (Part000.buildDeepLink (str "Hello from NFC")))
      = some (str "Hello from NFC") :=
  C1_link_codec_roundtrip (str "Hello from NFC") (by decide) (by decide)

/-- C2: for every invocation of `writeToTag` (both variants) and of
`readTag`, whatever the outcomes of the awaited platform calls — success
or rejection at any point — `cancelTechnologyRequest` is called exactly
once, by the `finally` block, before the handler returns. -/
theorem C2_session_cleanup (d1 d2 : Str) (wA wB : WriteEnv) (re : ReadEnv) :
    (AppTsx.writeToTag d1 wA).cancelCalls = 1 ∧
    (Part000.writeToTag d2 wB).cancelCalls = 1 ∧
    (Part000.readTag re).cancelCalls = 1 := by
  refine ⟨?_, ?_, ?_⟩
  · rcases wA with ⟨rt, wn⟩
    cases rt <;> cases wn <;> rfl
  · rcases wB with ⟨rt, wn⟩
    cases rt <;> cases wn <;> rfl
  · rcases re with ⟨rt, gt, gn⟩
    cases rt <;> cases gt <;> cases gn <;> rfl

/-- C3: when decoding fails on a runtime URL event, `lastRead` is set to
the sentinel `"No message found"`, whereas when decoding fails on the
cold-start initial URL, `lastRead` is left unchanged — in both variants. -/
theorem C3_decode_miss_asymmetry (prior : Option Str) (urlA urlB : Str)
    (hA : AppTsx.parseMessageFromUrl (some urlA) = none)
    (hB : Part000.parseMessageFromUrl (some urlB) = none) :
    AppTsx.handleUrlEvent prior urlA = some (str "No message found") ∧
    AppTsx.handleInitialUrl prior (some urlA) = prior ∧
    Part000.handleUrlEvent prior urlB = some (str "No message found") ∧
    Part000.handleInitialUrl prior (some urlB) = prior := by
  refine ⟨?_, ?_, ?_, ?_⟩ <;>
    simp only [AppTsx.handleUrlEvent, AppTsx.handleInitialUrl, Part000.handleUrlEvent,
      Part000.handleInitialUrl, hA, hB]

/-- Witness for C3 at the foreign-scheme URL `"http://read?m=hi"` with a
prior readout `"prev"`. -/
theorem C3_decode_miss_asymmetry_witness :
    AppTsx.handleUrlEvent (some (str "prev")) (str "http://read?m=hi")
      = some (str "No message found") ∧
    AppTsx.handleInitialUrl (some (str "prev")) (some (str "http://read?m=hi"))
      = some (str "prev") ∧
    Part000.handleUrlEvent (some (str "prev")) (str "http://read?m=hi")
      = some (str "No message found") ∧
    Part000.handleInitialUrl (some (str "prev")) (some (str "http://read?m=hi"))
      = some (str "prev") :=
  C3_decode_miss_asymmetry (some (str "prev")) (str "http://read?m=hi")
    (str "http://read?m=hi") (by decide) (by decide)

/-- C4: with Draft Message `"Hello from NFC"` and all platform calls
succeeding, `writeToTag` writes a single-record message whose sole record
is a URI record carrying exactly the deep link built from the draft,
surfaces the success confirmation, and (in the `part_000` variant) leaves
the `isWriting` busy flag false; the session is released once. -/
theorem C4_write_success :
    Part000.writeToTag (Part000.buildDeepLink (str "Hello from NFC"))
        ⟨Except.ok (), Except.ok ()⟩ =
      { written := some [NdefRecord.uri (Part000.buildDeepLink (str "Hello from NFC"))]
        alert := some ⟨str "Success",
          str "Wrote tag:\n" ++ Part000.buildDeepLink (str "Hello from NFC")⟩
        isWritingFinal := false
        cancelCalls := 1 } ∧
    AppTsx.writeToTag (AppTsx.buildDeepLink (str "Hello from NFC"))
        ⟨Except.ok (), Except.ok ()⟩ =
      { written := some [NdefRecord.uri (AppTsx.buildDeepLink (str "Hello from NFC"))]
        alert := some ⟨str "Success",
          str "Wrote tag:\n" ++ AppTsx.buildDeepLink (str "Hello from NFC")⟩
        cancelCalls := 1 } :=
  ⟨rfl, rfl⟩

/-- C5: any URL whose (parsed) scheme differs from the configured scheme
decodes to absent, in each variant, regardless of host or query. -/
theorem C5_scheme_rejection (url : Str) (u : URLRec) (hp : parseURL url = some u) :
    (u.protocol ≠ str "nfcmsg:" → AppTsx.parseMessageFromUrl (some url) = none) ∧
    (u.protocol ≠ str "https:" → Part000.parseMessageFromUrl (some url) = none) := by
  constructor
  · intro hne
    rw [parse_eval_appTsx hp, if_pos hne]
  · intro hne
    rw [parse_eval_part000 hp, if_pos (Or.inl hne)]

/-- Witness for C5 at `"http://read?m=hi"`, whose scheme `http:` matches
neither variant's configured scheme. -/
theorem C5_scheme_rejection_witness :
    AppTsx.parseMessageFromUrl (some (str "http://read?m=hi")) = none ∧
    Part000.parseMessageFromUrl (some (str "http://read?m=hi")) = none := by
  have h := C5_scheme_rejection (str "http://read?m=hi")
    ⟨str "http:", str "read", str "m=hi"⟩ (by decide)
  exact ⟨h.1 (by decide), h.2 (by decide)⟩

/-- C6: in the strict profile (`part_000`), a URL whose scheme matches but
whose host differs from the configured host decodes to absent. -/
theorem C6_host_rejection (url : Str) (u : URLRec) (hp : parseURL url = some u)
    (hproto : u.protocol = str "https:") (hhost : u.hostname ≠ str "nfcmsg.test") :
    Part000.parseMessageFromUrl (some url) = none := by
  rw [parse_eval_part000 hp, if_pos (Or.inr hhost)]

/-- Witness for C6 at `"https://evil.com/read?m=hi"`. -/
theorem C6_host_rejection_witness :
    Part000.parseMessageFromUrl (some (str "https://evil.com/read?m=hi")) = none :=
  C6_host_rejection (str "https://evil.com/read?m=hi")
    ⟨str "https:", str "evil.com", str "m=hi"⟩ (by decide) (by decide) (by decide)

/-- C7: decode failures are silent. The decoder is a total function into
`Option` — the `try`/`catch` of the source converts every internal throw
into `null`, modelled by the `none` branches — and each enumerated failure
class yields absent: a null/undefined input, a string the `URL` constructor
rejects, a scheme or host mismatch, and a well-formed matching URL whose
query lacks the `m` parameter. -/
theorem C7_decode_failures_silent :
    (AppTsx.parseMessageFromUrl none = none ∧ Part000.parseMessageFromUrl none = none) ∧
    (∀ url : Str, parseURL url = none →
      AppTsx.parseMessageFromUrl (some url) = none ∧
      Part000.parseMessageFromUrl (some url) = none) ∧
    (∀ (url : Str) (u : URLRec), parseURL url = some u →
      (u.protocol ≠ str "nfcmsg:" → AppTsx.parseMessageFromUrl (some url) = none) ∧
      (u.protocol ≠ str "https:" ∨ u.hostname ≠ str "nfcmsg.test" →
        Part000.parseMessageFromUrl (some url) = none)) ∧
    (∀ (url : Str) (u : URLRec), parseURL url = some u →
      searchParamsGet (str "m") u.search = none →
      AppTsx.parseMessageFromUrl (some url) = none ∧
      Part000.parseMessageFromUrl (some url) = none) := by
  refine ⟨⟨rfl, rfl⟩, ?_, ?_, ?_⟩
  · intro url hp
    constructor
    · simp only [AppTsx.parseMessageFromUrl]
      by_cases hu : url = []
      · rw [if_pos hu]
      · rw [if_neg hu, hp]
    · simp only [Part000.parseMessageFromUrl]
      by_cases hu : url = []
      · rw [if_pos hu]
      · rw [if_neg hu, hp]
  · intro url u hp
    constructor
    · intro hne
      rw [parse_eval_appTsx hp, if_pos hne]
    · intro hor
      rw [parse_eval_part000 hp, if_pos hor]
  · intro url u hp hm
    constructor
    · rw [parse_eval_appTsx hp]
      by_cases hc : u.protocol ≠ str "nfcmsg:" 
      · rw [if_pos hc]
      · rw [if_neg hc, hm]
        try rfl
    · rw [parse_eval_part000 hp]
      by_cases hc : u.protocol ≠ str "https:" ∨ u.hostname ≠ str "nfcmsg.test" 
      · rw [if_pos hc]
      · rw [if_neg hc, hm]
        try rfl

/-- Witness for C7: a malformed URL (no scheme) and well-formed matching
URLs without an `m` parameter, in each variant. -/
theorem C7_decode_failures_silent_witness :
    AppTsx.parseMessageFromUrl (some (str "notaurl")) = none ∧
    Part000.parseMessageFromUrl (some (str "notaurl")) = none ∧
    AppTsx.parseMessageFromUrl (some (str "nfcmsg://read/path")) = none ∧
    Part000.parseMessageFromUrl (some (str "https://nfcmsg.test/read")) = none :=
  ⟨(C7_decode_failures_silent.2.1 (str "notaurl") (by decide)).1,
    (C7_decode_failures_silent.2.1 (str "notaurl") (by decide)).2,
    (C7_decode_failures_silent.2.2.2 (str "nfcmsg://read/path")
      ⟨str "nfcmsg:", str "read", []⟩ (by decide) (by decide)).1,
    (C7_decode_failures_silent.2.2.2 (str "https://nfcmsg.test/read")
      ⟨str "https:", str "nfcmsg.test", []⟩ (by decide) (by decide)).2⟩

/-- C8: on a cold start with initial URL `nfcmsg://read?m=Hello%20World`,
the `getInitialURL` handler sets Last Read Message to `"Hello World"`,
whatever the prior readout state, with no user interaction modelled. -/
theorem C8_cold_start (prior : Option Str) :
    AppTsx.handleInitialUrl prior (some (str "nfcmsg://read?m=Hello%20World"))
      = some (str "Hello World") := by
  have hd : AppTsx.parseMessageFromUrl (some (str "nfcmsg://read?m=Hello%20World"))
      = some (str "Hello World") := by decide
  simp only [AppTsx.handleInitialUrl, hd]
  rw [if_neg (by decide)]

/-- C9: a manual read whose platform calls succeed and whose retrieved
NDEF message contains no records surfaces no error, leaves the readout
update untouched, clears the `isReading` busy flag, and still releases the
session exactly once. -/
theorem C9_no_record_read (env : ReadEnv)
    (h1 : env.requestTechnology = Except.ok ())
    (h2 : env.getTag = Except.ok ())
    (h3 : env.getNdefMessage = Except.ok (some ⟨some []⟩)) :
    Part000.readTag env =
      { lastReadUpdate := none, alert := none, isReadingFinal := false,
        cancelCalls := 1 } := by
  rcases env with ⟨rt, gt, gn⟩
  subst h1
  subst h2
  subst h3
  rfl

/-- Witness for C9 at the concrete all-success environment with an empty
record list. -/
theorem C9_no_record_read_witness :
    Part000.readTag ⟨Except.ok (), Except.ok (), Except.ok (some ⟨some []⟩)⟩ =
      { lastReadUpdate := none, alert := none, isReadingFinal := false,
        cancelCalls := 1 } :=
  C9_no_record_read ⟨Except.ok (), Except.ok (), Except.ok (some ⟨some []⟩)⟩
    rfl rfl rfl

/-- C10: the decoder never returns the empty string — any present result
is nonempty; a URL whose `m` parameter is present but empty decodes to
absent; and in particular decoding the deep link built from the empty
draft is absent, in both variants. -/
theorem C10_decode_never_empty :
    (∀ (url : Option Str) (m : Str), AppTsx.parseMessageFromUrl url = some m → ¬ m = []) ∧
    (∀ (url : Option Str) (m : Str), Part000.parseMessageFromUrl url = some m → ¬ m = []) ∧
    (∀ (url : Str) (u : URLRec), parseURL url = some u →
      searchParamsGet (str "m") u.search = some [] →
      AppTsx.parseMessageFromUrl (some url) = none ∧
      Part000.parseMessageFromUrl (some url) = none) ∧
    AppTsx.parseMessageFromUrl (some (AppTsx.buildDeepLink [])) = none ∧
    Part000.parseMessageFromUrl (some (Part000.buildDeepLink [])) = none := by
  refine ⟨?_, ?_, ?_, by decide, by decide⟩
  · intro url m h
    match url with
    | none => exact Option.noConfusion h
    | some u =>
      obtain ⟨raw, hr, hd⟩ := parse_some_inv_appTsx h
      exact decodeURIComponentJS_ne_nil hd hr
  · intro url m h
    match url with
    | none => exact Option.noConfusion h
    | some u =>
      obtain ⟨raw, hr, hd⟩ := parse_some_inv_part000 h
      exact decodeURIComponentJS_ne_nil hd hr
  · intro url u hp hm
    constructor
    · rw [parse_eval_appTsx hp]
      by_cases hc : u.protocol ≠ str "nfcmsg:" 
      · rw [if_pos hc]
      · rw [if_neg hc, hm]
        try rfl
    · rw [parse_eval_part000 hp]
      by_cases hc : u.protocol ≠ str "https:" ∨ u.hostname ≠ str "nfcmsg.test" 
      · rw [if_pos hc]
      · rw [if_neg hc, hm]
        try rfl

/-- Witness for C10: a decoded nonempty result, and empty-`m` URLs in each
variant. -/
theorem C10_decode_never_empty_witness :
    (¬ str "hi" = []) ∧
    AppTsx.parseMessageFromUrl (some (str "nfcmsg://read?m=")) = none ∧
    Part000.parseMessageFromUrl (some (str "https://nfcmsg.test/read?m=")) = none :=
  ⟨C10_decode_never_empty.1 (some (str "nfcmsg://read?m=hi")) (str "hi") (by decide),
    (C10_decode_never_empty.2.2.1 (str "nfcmsg://read?m=")
      ⟨str "nfcmsg:", str "read", str "m="⟩ (by decide) (by decide)).1,
    (C10_decode_never_empty.2.2.1 (str "https://nfcmsg.test/read?m=")
      ⟨str "https:", str "nfcmsg.test", str "m="⟩ (by decide) (by decide)).2⟩
